import Mathlib

/-!
# Verification of the pongo2 context / scoping module (`context.go`)

A shallow embedding of the variable-resolution subsystem of the pongo2
template engine.  Go's reference-shared mutable maps are modelled with an
explicit heap: a `Heap` is a list of flat key/value stores, addressed by
position, and a `Store` value is the shape of a Go `context` interface
value — either a reference to a flat map (`mapContext`) or a pair of
stores (`mergedContext`).  Mutation is explicit state passing on the heap;
the package-level `autoescape` variable is a field of a `World` record.
-/

namespace Pongo2

/-- Dynamic values (Go `interface{}`).  `vnil` is Go's nil interface, the
zero value returned by a map lookup miss.  `vctxRef` is an interface value
holding a reference to a `mapContext` living in the heap (this is how the
package-level `pongo2MetaContext` map is stored inside another map). -/
inductive Value where
  | vnil : Value
  | vstr (s : String) : Value
  | vint (n : Int) : Value
  | vbool (b : Bool) : Value
  | vctxRef (addr : Nat) : Value
deriving Repr, DecidableEq

/-- The contents of one Go map: an association list from identifier to value. -/
abbrev FlatData := List (String × Value)

/-- The mutable state of all maps: address-indexed flat stores. -/
abbrev Heap := List FlatData

/-- Read the map stored at address `a`; an unallocated address reads as empty. -/
def heapGet : Heap → Nat → FlatData
  | [], _ => []
  | d :: _, 0 => d
  | _ :: rest, n + 1 => heapGet rest n

/-- Overwrite the map stored at address `a` (no-op when unallocated). -/
def heapSet : Heap → Nat → FlatData → Heap
  | [], _, _ => []
  | _ :: rest, 0, d => d :: rest
  | x :: rest, n + 1, d => x :: heapSet rest n d

/-- Go map read `v, ok := m[key]`: the pair (value, found), with the nil
zero value on a miss. -/
def flatGet : FlatData → String → Value × Bool
  | [], _ => (Value.vnil, false)
  | (k, v) :: rest, key => if k = key then (v, true) else flatGet rest key

/-- Go map write `m[key] = val`: silent overwrite. -/
def flatSet (d : FlatData) (key : String) (v : Value) : FlatData :=
  (key, v) :: d.filter (fun kv => kv.1 != key)

/-- A Go `context` interface value: either a reference to a `mapContext`
in the heap, or a `mergedContext{a, b}` composing two contexts
(`a` = base, `b` = overlay). -/
inductive Store where
  | flat (addr : Nat) : Store
  | merged (a b : Store) : Store
deriving Repr, DecidableEq

/-- `GetValue` of the `context` interface.
`mapContext.GetValue` reads the underlying map.
`mergedContext.GetValue` tries the overlay `b` first and falls back to
the base `a` exactly when the overlay reports not-found
(`context.go` lines 39-42 and 72-78). -/
def Store.GetValue (h : Heap) : Store → String → Value × Bool
  | .flat a, key => flatGet (heapGet h a) key
  | .merged sa sb, key =>
    let r := sb.GetValue h key
    if r.2 then r else sa.GetValue h key

/-- `SetValue` of the `context` interface.
`mapContext.SetValue` writes the underlying map;
`mergedContext.SetValue` always writes the overlay `b`
(`context.go` lines 44-46 and 80-82). -/
def Store.SetValue (h : Heap) : Store → String → Value → Heap
  | .flat a, key, v => heapSet h a (flatSet (heapGet h a) key v)
  | .merged _ sb, key, v => sb.SetValue h key v

/-- `GetIdentifiers` of the `context` interface.
`mapContext.GetIdentifiers` lists the keys of the map;
`mergedContext.GetIdentifiers` appends `a`'s list then `b`'s list, each
guarded by a redundant non-emptiness test (`context.go` lines 48-54 and
84-93). -/
def Store.GetIdentifiers (h : Heap) : Store → List String
  | .flat a => (heapGet h a).map Prod.fst
  | .merged sa sb =>
    let ids : List String := []
    let ids :=
      if (sa.GetIdentifiers h).length > 0 then ids ++ sa.GetIdentifiers h else ids
    if (sb.GetIdentifiers h).length > 0 then ids ++ sb.GetIdentifiers h else ids

/-- `mergeContexts(a, b)` (`context.go` lines 95-97). -/
def mergeContexts (a b : Store) : Store := Store.merged a b

/-- All heap addresses a store can reach directly (the `mapContext`
references held by the interface value). -/
def Store.addrs : Store → List Nat
  | .flat a => [a]
  | .merged sa sb => sa.addrs ++ sb.addrs

/-- The single address a `SetValue` through this store writes: the
rightmost (innermost-overlay) flat map. -/
def Store.writeAddr : Store → Nat
  | .flat a => a
  | .merged _ sb => sb.writeAddr

/-- A store is valid in a heap when every address it references is allocated. -/
def Store.validIn (s : Store) (h : Heap) : Prop := ∀ a ∈ s.addrs, a < h.length

instance (s : Store) (h : Heap) : Decidable (s.validIn h) := by
  unfold Store.validIn; infer_instance

/-! ## Basic heap lemmas -/

theorem heapSet_length (h : Heap) (a : Nat) (d : FlatData) :
    (heapSet h a d).length = h.length := by
  induction h generalizing a with
  | nil => rfl
  | cons x rest ih =>
    cases a with
    | zero => rfl
    | succ n => simpa [heapSet] using ih n

theorem heapGet_heapSet_eq (h : Heap) (a : Nat) (d : FlatData) (ha : a < h.length) :
    heapGet (heapSet h a d) a = d := by
  induction h generalizing a with
  | nil => simp at ha
  | cons x rest ih =>
    cases a with
    | zero => rfl
    | succ n =>
      simp only [List.length_cons, Nat.succ_lt_succ_iff] at ha
      simpa [heapSet, heapGet] using ih n ha

theorem heapGet_heapSet_ne (h : Heap) (a b : Nat) (d : FlatData) (hab : a ≠ b) :
    heapGet (heapSet h a d) b = heapGet h b := by
  induction h generalizing a b with
  | nil => rfl
  | cons x rest ih =>
    cases a with
    | zero =>
      cases b with
      | zero => exact absurd rfl hab
      | succ m => rfl
    | succ n =>
      cases b with
      | zero => rfl
      | succ m =>
        simpa [heapSet, heapGet] using ih n m (fun e => hab (by simp [e]))

theorem heapGet_append_lt (h h2 : Heap) (a : Nat) (ha : a < h.length) :
    heapGet (h ++ h2) a = heapGet h a := by
  induction h generalizing a with
  | nil => simp at ha
  | cons x rest ih =>
    cases a with
    | zero => rfl
    | succ n =>
      simp only [List.length_cons, Nat.succ_lt_succ_iff] at ha
      simpa [heapGet] using ih n ha

theorem heapGet_append_self (h : Heap) (d : FlatData) (h2 : Heap) :
    heapGet (h ++ d :: h2) h.length = d := by
  induction h with
  | nil => rfl
  | cons x rest ih => simpa [heapGet] using ih

theorem heapGet_ge (h : Heap) (a : Nat) (ha : h.length ≤ a) :
    heapGet h a = [] := by
  induction h generalizing a with
  | nil => rfl
  | cons x rest ih =>
    cases a with
    | zero => simp at ha
    | succ n =>
      simp only [List.length_cons, Nat.succ_le_succ_iff] at ha
      simpa [heapGet] using ih n ha

/-- Appending a fresh empty map changes no read at all. -/
theorem heapGet_append_nil (h : Heap) (a : Nat) :
    heapGet (h ++ [[]]) a = heapGet h a := by
  rcases Nat.lt_or_ge a h.length with hlt | hge
  · exact heapGet_append_lt h [[]] a hlt
  · rw [heapGet_ge h a hge]
    rcases Nat.eq_or_lt_of_le hge with rfl | hgt
    · exact heapGet_append_self h [] []
    · refine heapGet_ge _ a ?_
      simpa using hgt

/-! ## C1: merged read-through semantics -/

/-- **C1.** For every ScopeView (`mergedContext`) with stores `base` and
`overlay` and every name: `GetValue` returns the overlay's result when the
overlay reports found, otherwise exactly the base's result; and the found
flag of the view is the disjunction of the two found flags (so it is
`false` exactly when neither store contains the name). -/
theorem mergedContext_getValue_overlay_first (h : Heap) (base overlay : Store) (key : String) :
    (Store.merged base overlay).GetValue h key =
      (if (overlay.GetValue h key).2 then overlay.GetValue h key else base.GetValue h key) ∧
    ((Store.merged base overlay).GetValue h key).2 =
      ((overlay.GetValue h key).2 || (base.GetValue h key).2) := by
  constructor
  · rfl
  · show (if (overlay.GetValue h key).2 then _ else _ : Value × Bool).2 = _
    cases hov : (overlay.GetValue h key).2 <;> simp [hov]

/-! ## Store-level lemmas -/

theorem Store.writeAddr_mem_addrs (s : Store) : s.writeAddr ∈ s.addrs := by
  induction s with
  | flat a => simp [Store.writeAddr, Store.addrs]
  | merged sa sb iha ihb => simp [Store.writeAddr, Store.addrs, ihb]

/-- Reads only depend on the heap at the addresses the store references. -/
theorem Store.getValue_congr (s : Store) (h1 h2 : Heap)
    (hag : ∀ a ∈ s.addrs, heapGet h1 a = heapGet h2 a) (key : String) :
    s.GetValue h1 key = s.GetValue h2 key := by
  induction s with
  | flat a =>
    simp only [Store.GetValue]
    rw [hag a (by simp [Store.addrs])]
  | merged sa sb iha ihb =>
    have ha' : ∀ a ∈ sa.addrs, heapGet h1 a = heapGet h2 a := by
      intro a hm; exact hag a (by simp [Store.addrs, hm])
    have hb' : ∀ a ∈ sb.addrs, heapGet h1 a = heapGet h2 a := by
      intro a hm; exact hag a (by simp [Store.addrs, hm])
    simp only [Store.GetValue]
    rw [iha ha', ihb hb']

/-- A `SetValue` is exactly one heap write, at `writeAddr`. -/
theorem Store.setValue_eq_heapSet (s : Store) (h : Heap) (key : String) (v : Value) :
    s.SetValue h key v = heapSet h s.writeAddr (flatSet (heapGet h s.writeAddr) key v) := by
  induction s with
  | flat a => rfl
  | merged sa sb iha ihb => simpa [Store.SetValue, Store.writeAddr] using ihb

/-- Writing through store `t` does not change any read through a store `s`
whose addresses avoid `t`'s write target. -/
theorem Store.getValue_after_foreign_set (s t : Store) (h : Heap) (key k2 : String)
    (v : Value) (hfr : t.writeAddr ∉ s.addrs) :
    s.GetValue (t.SetValue h key v) k2 = s.GetValue h k2 := by
  rw [t.setValue_eq_heapSet h key v]
  refine s.getValue_congr _ h ?_ k2
  intro a ha
  exact heapGet_heapSet_ne h t.writeAddr a _ (fun e => hfr (e ▸ ha))

theorem Store.getValue_append_nil (s : Store) (h : Heap) (key : String) :
    s.GetValue (h ++ [[]]) key = s.GetValue h key :=
  s.getValue_congr _ h (fun a _ => heapGet_append_nil h a) key

/-! ## External collaborators (modelled from the spec)

`Template`, `Token`, the `Error` struct and the `Version` constant are
declared in other files of this repository that are not part of the given
source; they are modelled from the spec's interface contracts (§6, §4.5). -/

/-- Modelled from the spec: the `Template` collaborator, which "exposes a
display/identifying name and a reference to its owning template-set"; only
the name is observed by this core. -/
structure Template where
  name : String
deriving Repr, DecidableEq

/-- Modelled from the spec: the `Token` collaborator, which "exposes
source filename, line, and column". -/
structure Token where
  Filename : String
  Line : Int
  Col : Int
deriving Repr, DecidableEq

/-- Modelled from the spec: the structured `Error` value built by this
module, "carrying: owning template reference; resolved source filename;
line and column; the token reference itself (nullable); a fixed sender
tag; and the original message or wrapped cause".  Unset fields default to
Go zero values.  The underlying Go `error` cause is modelled by its
message string. -/
structure Error where
  Template : Option Pongo2.Template := none
  Filename : String := ""
  Line : Int := 0
  Column : Int := 0
  Token : Option Pongo2.Token := none
  Sender : String := ""
  OrigError : String := ""
deriving Repr, DecidableEq

/-- Modelled from the spec: "EngineVersion: a fixed string constant
exposed to templates under the reserved metadata namespace". -/
def Version : String := "engine-version"

/-! ## Identifier validation -/

/-- One character of the class `[a-zA-Z0-9_]` of `reIdentifiers`. -/
def identChar (c : Char) : Bool := c.isAlphanum || c == '_'

/-- The anchored regexp `^[a-zA-Z0-9_]+$` (`context.go` line 9): the
rune sequence is non-empty and every rune is in the class. -/
def reIdentifiersMatch (s : String) : Bool :=
  !s.data.isEmpty && s.data.all identChar

/-- `checkForValidIdentifiers` (`context.go` lines 56-66): scan in order,
return on the first name failing the regexp a `*Error` with the fixed
sender tag and the offending name; `nil` when all pass. -/
def checkForValidIdentifiers : List String → Option Error
  | [] => none
  | v :: rest =>
    if !reIdentifiersMatch v then
      some { Sender := "checkForValidIdentifiers",
             OrigError := "context-key '" ++ v ++ "' is not a valid identifier" }
    else checkForValidIdentifiers rest

/-! ## ExecutionContext -/

/-- The package-level mutable state: the heap of all maps and the
`autoescape` package variable (`context.go` line 11). -/
structure World where
  heap : Heap
  autoescape : Bool

/-- `SetAutoescape` (`context.go` lines 13-15): assign the package-level
default. -/
def SetAutoescape (w : World) (newValue : Bool) : World :=
  { w with autoescape := newValue }

/-- `ExecutionContext` (`context.go` lines 123-131).  `Shared` is an
interface field left at its nil zero value by root construction, hence an
`Option`. -/
structure ExecutionContext where
  template : Template
  macroDepth : Int
  Autoescape : Bool
  Public : Store
  Private : Store
  Shared : Option Store
deriving Repr, DecidableEq

/-- The heap address of the package-level `pongo2MetaContext` map
(`context.go` lines 133-135): a single object allocated once at package
initialisation, placed at address 0 of the initial heap. -/
def pongo2MetaAddr : Nat := 0

/-- The contents of `pongo2MetaContext`: `{"version": Version}`. -/
def pongo2MetaData : FlatData := [("version", Value.vstr Version)]

/-- The heap at package initialisation: only `pongo2MetaContext` is allocated. -/
def initHeap : Heap := [pongo2MetaData]

/-- `newExecutionContext` (`context.go` lines 137-150): allocate the
private map pre-seeded with the `"pongo2"` reference to the shared
package-level meta map, wrap the user store in a merged view with a fresh
empty overlay, snapshot the `autoescape` default, and leave `Shared` nil
and `macroDepth` zero. -/
def newExecutionContext (w : World) (tpl : Template) (ctx : Store) :
    ExecutionContext × World :=
  let privAddr := w.heap.length
  let overlayAddr := w.heap.length + 1
  ({ template := tpl
     macroDepth := 0
     Autoescape := w.autoescape
     Public := mergeContexts ctx (Store.flat overlayAddr)
     Private := Store.flat privAddr
     Shared := none },
   { w with heap := w.heap ++ [[("pongo2", Value.vctxRef pongo2MetaAddr)], []] })

/-- `NewChildExecutionContext` (`context.go` lines 152-163): share
`template`, `Public` and `Shared` by reference, copy `Autoescape` by
value, layer a fresh empty overlay over the parent's `Private`, and leave
`macroDepth` at its zero value. -/
def NewChildExecutionContext (w : World) (parent : ExecutionContext) :
    ExecutionContext × World :=
  let overlayAddr := w.heap.length
  ({ template := parent.template
     macroDepth := 0
     Autoescape := parent.Autoescape
     Public := parent.Public
     Private := mergeContexts parent.Private (Store.flat overlayAddr)
     Shared := parent.Shared },
   { w with heap := w.heap ++ [[]] })

/-- `ExecutionContext.OrigError` (`context.go` lines 169-188): filename
defaults to the template's name, line and column to zero; a non-nil token
overrides all three with its own fields; the sender tag is always
`"execution"`. -/
def ExecutionContext.OrigError (ctx : ExecutionContext) (err : String)
    (token : Option Token) : Error :=
  let filename := ctx.template.name
  match token with
  | none =>
    { Template := some ctx.template, Filename := filename, Line := 0, Column := 0,
      Token := none, Sender := "execution", OrigError := err }
  | some t =>
    { Template := some ctx.template, Filename := t.Filename, Line := t.Line,
      Column := t.Col, Token := some t, Sender := "execution", OrigError := err }

/-- `ExecutionContext.Error` (`context.go` lines 165-167): wrap the plain
message (`errors.New`) and defer to `OrigError`. -/
def ExecutionContext.Error (ctx : ExecutionContext) (msg : String)
    (token : Option Token) : Error :=
  ctx.OrigError msg token

/-! ## Context.Update -/

/-- A Go `Context` value is a map reference: a heap address. -/
abbrev Context := Nat

/-- `Context.Update` (`context.go` lines 101-106): copy every entry of
`other` into the receiver map `c` in place, and return the receiver
itself (the same reference, not a copy). -/
def Context.Update (h : Heap) (c other : Context) : Context × Heap :=
  (c, heapSet h c ((heapGet h other).foldl (fun d kv => flatSet d kv.1 kv.2) (heapGet h c)))

/-! ## C2: writes land in the overlay only -/

theorem Store.getValue_append (s : Store) (h h2 : Heap) (hs : s.validIn h)
    (key : String) : s.GetValue (h ++ h2) key = s.GetValue h key :=
  s.getValue_congr _ h (fun a ha => heapGet_append_lt h h2 a (hs a ha)) key

/-- **C2.** `SetValue` on a ScopeView stores into the overlay only: the
resulting heap is exactly the one produced by writing the overlay, and —
for a view whose overlay shares no map with its base, as every view built
by this module — every read through the base is unchanged.  In
particular, after root-scope construction over a user store `ctx` that
was allocated in the pre-construction heap, a write through the returned
`Public` view changes no `GetValue` result of `ctx`. -/
theorem scopeView_setValue_overlay_only
    (h : Heap) (base overlay : Store) (key k2 : String) (v : Value)
    (hdisj : ∀ a ∈ overlay.addrs, a ∉ base.addrs)
    (w : World) (tpl : Template) (ctx : Store) (hctx : ctx.validIn w.heap)
    (key2 k3 : String) (v2 : Value) :
    (Store.merged base overlay).SetValue h key v = overlay.SetValue h key v ∧
    base.GetValue ((Store.merged base overlay).SetValue h key v) k2 =
      base.GetValue h k2 ∧
    ctx.GetValue
        (((newExecutionContext w tpl ctx).1).Public.SetValue
          ((newExecutionContext w tpl ctx).2).heap key2 v2) k3 =
      ctx.GetValue w.heap k3 := by
  refine ⟨rfl, ?_, ?_⟩
  · exact Store.getValue_after_foreign_set base (Store.merged base overlay) h key k2 v
      (hdisj overlay.writeAddr overlay.writeAddr_mem_addrs)
  · have hpub :
        ((newExecutionContext w tpl ctx).1).Public =
          Store.merged ctx (Store.flat (w.heap.length + 1)) := rfl
    have hheap :
        ((newExecutionContext w tpl ctx).2).heap =
          w.heap ++ [[("pongo2", Value.vctxRef pongo2MetaAddr)], []] := rfl
    rw [hpub, hheap]
    have hfr : (Store.merged ctx (Store.flat (w.heap.length + 1))).writeAddr ∉ ctx.addrs := by
      intro hmem
      have := hctx _ hmem
      simp [Store.writeAddr] at this
    rw [Store.getValue_after_foreign_set ctx _ _ key2 k3 v2 hfr]
    exact ctx.getValue_append w.heap _ hctx k3

/-- Witness for C2 at a concrete view (`base = map 0 = {a:1}`,
`overlay = map 1 = {}`) and a concrete root construction. -/
theorem scopeView_setValue_overlay_only_witness :
    (∀ a ∈ (Store.flat 1).addrs, a ∉ (Store.flat 0).addrs) ∧
    (Store.flat 0).validIn (⟨[[("a", Value.vint 1)], []], true⟩ : World).heap ∧
    ((Store.merged (Store.flat 0) (Store.flat 1)).SetValue
        [[("a", Value.vint 1)], []] "a" (Value.vint 2) =
      (Store.flat 1).SetValue [[("a", Value.vint 1)], []] "a" (Value.vint 2) ∧
    (Store.flat 0).GetValue
        ((Store.merged (Store.flat 0) (Store.flat 1)).SetValue
          [[("a", Value.vint 1)], []] "a" (Value.vint 2)) "a" =
      (Store.flat 0).GetValue [[("a", Value.vint 1)], []] "a" ∧
    (Store.flat 0).GetValue
        (((newExecutionContext ⟨[[("a", Value.vint 1)], []], true⟩ ⟨"t"⟩
              (Store.flat 0)).1).Public.SetValue
          ((newExecutionContext ⟨[[("a", Value.vint 1)], []], true⟩ ⟨"t"⟩
              (Store.flat 0)).2).heap "a" (Value.vint 9)) "a" =
      (Store.flat 0).GetValue (⟨[[("a", Value.vint 1)], []], true⟩ : World).heap "a") :=
  ⟨by decide, by decide,
    scopeView_setValue_overlay_only [[("a", Value.vint 1)], []]
      (Store.flat 0) (Store.flat 1) "a" "a" (Value.vint 2) (by decide)
      ⟨[[("a", Value.vint 1)], []], true⟩ ⟨"t"⟩ (Store.flat 0) (by decide)
      "a" "a" (Value.vint 9)⟩

/-! ## Flat-store read-after-write lemmas -/

theorem flatGet_filter_ne (d : FlatData) (k k2 : String) (hkk : k ≠ k2) :
    flatGet (d.filter (fun kv => kv.1 != k)) k2 = flatGet d k2 := by
  induction d with
  | nil => rfl
  | cons kv rest ih =>
    obtain ⟨a, b⟩ := kv
    by_cases hk : a = k
    · have hne : ¬ a = k2 := by rw [hk]; exact hkk
      rw [List.filter_cons_of_neg (by simp [hk])]
      simp only [flatGet, if_neg hne]
      exact ih
    · rw [List.filter_cons_of_pos (by simp [hk])]
      simp only [flatGet]
      by_cases h2 : a = k2
      · rw [if_pos h2, if_pos h2]
      · rw [if_neg h2, if_neg h2]
        exact ih

theorem flatGet_flatSet (d : FlatData) (k k2 : String) (v : Value) :
    flatGet (flatSet d k v) k2 = if k = k2 then (v, true) else flatGet d k2 := by
  simp only [flatSet, flatGet]
  by_cases h : k = k2
  · rw [if_pos h, if_pos h]
  · rw [if_neg h, if_neg h]
    exact flatGet_filter_ne d k k2 h

/-! ## C3: child Private isolation -/

/-- **C3.** For every parent and child produced by
`NewChildExecutionContext`: a `SetValue` into the child's `Private` is not
observable through `parent.Private.GetValue` (for any key), while every
read through the child's `Private` in the post-derivation heap returns
exactly what the parent's `Private` returned before derivation — so a name
bound only in the parent's `Private` is found from the child. -/
theorem child_private_isolation (w : World) (parent : ExecutionContext)
    (hpriv : parent.Private.validIn w.heap) (key k2 n : String) (v : Value) :
    parent.Private.GetValue
        (((NewChildExecutionContext w parent).1).Private.SetValue
          ((NewChildExecutionContext w parent).2).heap key v) k2 =
      parent.Private.GetValue w.heap k2 ∧
    ((NewChildExecutionContext w parent).1).Private.GetValue
        ((NewChildExecutionContext w parent).2).heap n =
      parent.Private.GetValue w.heap n := by
  have hchild :
      ((NewChildExecutionContext w parent).1).Private =
        Store.merged parent.Private (Store.flat w.heap.length) := rfl
  have hheap : ((NewChildExecutionContext w parent).2).heap = w.heap ++ [[]] := rfl
  constructor
  · rw [hchild, hheap]
    have hfr :
        (Store.merged parent.Private (Store.flat w.heap.length)).writeAddr ∉
          parent.Private.addrs := by
      intro hmem
      have := hpriv _ hmem
      simp [Store.writeAddr] at this
    rw [Store.getValue_after_foreign_set parent.Private _ _ key k2 v hfr]
    exact parent.Private.getValue_append_nil w.heap k2
  · rw [hchild, hheap]
    simp only [Store.GetValue]
    have hov : heapGet (w.heap ++ [[]]) w.heap.length = [] :=
      heapGet_append_self w.heap [] []
    rw [hov]
    simp only [flatGet]
    exact parent.Private.getValue_append_nil w.heap n

/-- Witness for C3 at a concrete parent whose `Private` is map 0 = `{p:7}`. -/
theorem child_private_isolation_witness :
    ((Store.flat 0).validIn ([[("p", Value.vint 7)]] : Heap)) ∧
    ((⟨⟨"t"⟩, 0, true, Store.flat 0, Store.flat 0, none⟩ :
          ExecutionContext).Private.GetValue
        (((NewChildExecutionContext ⟨[[("p", Value.vint 7)]], true⟩
              ⟨⟨"t"⟩, 0, true, Store.flat 0, Store.flat 0, none⟩).1).Private.SetValue
          ((NewChildExecutionContext ⟨[[("p", Value.vint 7)]], true⟩
              ⟨⟨"t"⟩, 0, true, Store.flat 0, Store.flat 0, none⟩).2).heap
          "q" (Value.vint 1)) "p" =
      (Store.flat 0).GetValue [[("p", Value.vint 7)]] "p" ∧
    ((NewChildExecutionContext ⟨[[("p", Value.vint 7)]], true⟩
          ⟨⟨"t"⟩, 0, true, Store.flat 0, Store.flat 0, none⟩).1).Private.GetValue
        ((NewChildExecutionContext ⟨[[("p", Value.vint 7)]], true⟩
            ⟨⟨"t"⟩, 0, true, Store.flat 0, Store.flat 0, none⟩).2).heap "p" =
      (Store.flat 0).GetValue [[("p", Value.vint 7)]] "p") :=
  ⟨by decide,
    child_private_isolation ⟨[[("p", Value.vint 7)]], true⟩
      ⟨⟨"t"⟩, 0, true, Store.flat 0, Store.flat 0, none⟩ (by decide)
      "q" "p" "p" (Value.vint 1)⟩

/-! ## C4: child shares Public, Shared, template; macroDepth restarts -/

/-- **C4.** `NewChildExecutionContext` copies `Public`, `Shared` and
`template` by reference (the child's fields are the identical store and
template values held by the parent, so a write through the child's
`Public` is read back identically through the parent's), and the child's
`macroDepth` is zero regardless of the parent's value. -/
theorem child_shares_public_shared_template (w : World) (parent : ExecutionContext)
    (h : Heap) (key k2 : String) (v : Value) :
    ((NewChildExecutionContext w parent).1).Public = parent.Public ∧
    ((NewChildExecutionContext w parent).1).Shared = parent.Shared ∧
    ((NewChildExecutionContext w parent).1).template = parent.template ∧
    ((NewChildExecutionContext w parent).1).macroDepth = 0 ∧
    parent.Public.GetValue
        (((NewChildExecutionContext w parent).1).Public.SetValue h key v) k2 =
      ((NewChildExecutionContext w parent).1).Public.GetValue
        (((NewChildExecutionContext w parent).1).Public.SetValue h key v) k2 :=
  ⟨rfl, rfl, rfl, rfl, rfl⟩

/-! ## C5: all roots share one pongo2 meta map -/

/-- **C5.** Any two root `ExecutionContext`s built by
`newExecutionContext` — here from any world `w`, in sequence — bind the
reserved key `"pongo2"` in their `Private` stores to a reference to the
single package-level `pongo2MetaContext` map (the same heap address), so
a write into that nested map performed through the reference read from
one root is observed when reading through the reference read from the
other. -/
theorem roots_share_pongo2_meta (w : World) (tpl1 tpl2 : Template)
    (ctx1 ctx2 : Store) (k : String) (v : Value) :
    ((newExecutionContext w tpl1 ctx1).1).Private.GetValue
        ((newExecutionContext ((newExecutionContext w tpl1 ctx1).2) tpl2 ctx2).2).heap
        "pongo2" = (Value.vctxRef pongo2MetaAddr, true) ∧
    ((newExecutionContext ((newExecutionContext w tpl1 ctx1).2) tpl2 ctx2).1).Private.GetValue
        ((newExecutionContext ((newExecutionContext w tpl1 ctx1).2) tpl2 ctx2).2).heap
        "pongo2" = (Value.vctxRef pongo2MetaAddr, true) ∧
    (Store.flat pongo2MetaAddr).GetValue
        ((Store.flat pongo2MetaAddr).SetValue
          ((newExecutionContext ((newExecutionContext w tpl1 ctx1).2) tpl2 ctx2).2).heap
          k v) k = (v, true) := by
  set p : FlatData := [("pongo2", Value.vctxRef pongo2MetaAddr)] with hp
  refine ⟨?_, ?_, ?_⟩
  · show flatGet (heapGet ((w.heap ++ [p, []]) ++ [p, []]) w.heap.length) "pongo2" = _
    rw [heapGet_append_lt _ _ _ (by simp), heapGet_append_self]
    rfl
  · show flatGet (heapGet ((w.heap ++ [p, []]) ++ [p, []]) (w.heap ++ [p, []]).length)
        "pongo2" = _
    rw [heapGet_append_self]
    rfl
  · show flatGet
        (heapGet
          (heapSet ((w.heap ++ [p, []]) ++ [p, []]) pongo2MetaAddr
            (flatSet (heapGet ((w.heap ++ [p, []]) ++ [p, []]) pongo2MetaAddr) k v))
          pongo2MetaAddr) k = _
    rw [heapGet_heapSet_eq _ _ _ (by simp [pongo2MetaAddr]), flatGet_flatSet]
    simp

/-! ## C6: identifier validation -/

theorem identChar_iff (c : Char) :
    identChar c = true ↔
      (('A' ≤ c ∧ c ≤ 'Z') ∨ ('a' ≤ c ∧ c ≤ 'z') ∨ ('0' ≤ c ∧ c ≤ '9') ∨ c = '_') := by
  simp only [identChar, Char.isAlphanum, Char.isAlpha, Char.isUpper, Char.isLower,
    Char.isDigit, Char.le_def, ge_iff_le, Bool.or_eq_true, Bool.and_eq_true,
    decide_eq_true_eq, beq_iff_eq, Char.ext_iff]
  tauto

theorem reIdentifiersMatch_iff (s : String) :
    reIdentifiersMatch s = true ↔
      (s ≠ "" ∧ ∀ c ∈ s.data,
        ('A' ≤ c ∧ c ≤ 'Z') ∨ ('a' ≤ c ∧ c ≤ 'z') ∨ ('0' ≤ c ∧ c ≤ '9') ∨ c = '_') := by
  have hne : (s.data.isEmpty = false) ↔ s ≠ "" := by
    rw [List.isEmpty_eq_false]
    constructor
    · intro h he
      exact h (he ▸ rfl)
    · intro h hd
      exact h (String.ext hd)
  simp only [reIdentifiersMatch, Bool.and_eq_true, Bool.not_eq_true', List.all_eq_true,
    identChar_iff]
  rw [hne]

/-- **C6.** `checkForValidIdentifiers` is fully characterised by the
first name failing the identifier regexp: it returns exactly the mapped
image of `find?` over the invalidity test — `nil` when every name passes
(in particular on the empty sequence), and otherwise one `*Error` with
the fixed sender tag `"checkForValidIdentifiers"` whose message names the
first invalid name in sequence order.  A name passes the regexp exactly
when it is non-empty and all its characters lie in `[A-Za-z0-9_]`. -/
theorem checkForValidIdentifiers_spec (ids : List String) :
    checkForValidIdentifiers ids =
      (ids.find? (fun s => !reIdentifiersMatch s)).map
        (fun v =>
          { Sender := "checkForValidIdentifiers",
            OrigError := "context-key '" ++ v ++ "' is not a valid identifier" }) ∧
    (checkForValidIdentifiers ids = none ↔
      ∀ s ∈ ids, s ≠ "" ∧ ∀ c ∈ s.data,
        ('A' ≤ c ∧ c ≤ 'Z') ∨ ('a' ≤ c ∧ c ≤ 'z') ∨ ('0' ≤ c ∧ c ≤ '9') ∨ c = '_') := by
  have hmain : checkForValidIdentifiers ids =
      (ids.find? (fun s => !reIdentifiersMatch s)).map
        (fun v =>
          { Sender := "checkForValidIdentifiers",
            OrigError := "context-key '" ++ v ++ "' is not a valid identifier" }) := by
    induction ids with
    | nil => rfl
    | cons v rest ih =>
      by_cases hv : reIdentifiersMatch v
      · simp [checkForValidIdentifiers, List.find?_cons, hv, ih]
      · simp [checkForValidIdentifiers, List.find?_cons, hv]
  refine ⟨hmain, ?_⟩
  rw [hmain]
  simp only [Option.map_eq_none', List.find?_eq_none, Bool.not_eq_true',
    Bool.not_eq_false]
  constructor
  · intro h s hs
    exact (reIdentifiersMatch_iff s).mp (h s hs)
  · intro h s hs
    exact (reIdentifiersMatch_iff s).mpr (h s hs)

/-! ## C7: error construction -/

/-- **C7.** `OrigError` always yields a structured error with the fixed
sender tag `"execution"`, the scope's owning template, and the wrapped
cause; its `Token`, `Filename`, `Line` and `Column` are the token's
`Filename`/`Line`/`Col` verbatim when a token is supplied, and the
template's own name with zero line and column when the token is nil (the
construction is total, so it never fails for lack of a token); and
`Error` is `OrigError` applied to the plain message. -/
theorem origError_location_spec (ctx : ExecutionContext) (err msg : String)
    (token : Option Token) :
    (ctx.OrigError err token).Sender = "execution" ∧
    (ctx.OrigError err token).Template = some ctx.template ∧
    (ctx.OrigError err token).OrigError = err ∧
    (ctx.OrigError err token).Token = token ∧
    (ctx.OrigError err token).Filename =
      (match token with
       | none => ctx.template.name
       | some t => t.Filename) ∧
    (ctx.OrigError err token).Line =
      (match token with
       | none => 0
       | some t => t.Line) ∧
    (ctx.OrigError err token).Column =
      (match token with
       | none => 0
       | some t => t.Col) ∧
    ctx.Error msg token = ctx.OrigError msg token := by
  cases token with
  | none => exact ⟨rfl, rfl, rfl, rfl, rfl, rfl, rfl, rfl⟩
  | some t => exact ⟨rfl, rfl, rfl, rfl, rfl, rfl, rfl, rfl⟩

/-! ## C8: identifier listing -/

theorem flatGet_eq_false_of_not_mem (d : FlatData) (k : String)
    (hk : k ∉ d.map Prod.fst) :
    flatGet d k = (Value.vnil, false) := by
  induction d with
  | nil => rfl
  | cons kv rest ih =>
    obtain ⟨a, b⟩ := kv
    simp only [List.map_cons, List.mem_cons, not_or] at hk
    simp only [flatGet, if_neg (fun e : a = k => hk.1 e.symm)]
    exact ih hk.2

theorem count_keys_of_nodup (d : FlatData) (k : String)
    (hwf : (d.map Prod.fst).Nodup) :
    (d.map Prod.fst).count k = (if (flatGet d k).2 then 1 else 0) := by
  induction d with
  | nil => rfl
  | cons kv rest ih =>
    obtain ⟨a, b⟩ := kv
    simp only [List.map_cons, List.nodup_cons] at hwf
    rw [List.map_cons, List.count_cons]
    by_cases hak : a = k
    · subst hak
      have h0 : (rest.map Prod.fst).count a = 0 :=
        List.count_eq_zero_of_not_mem hwf.1
      simp [flatGet, h0]
    · simp only [flatGet, if_neg hak]
      rw [ih hwf.2]
      simp [hak]

/-- **C8.** `GetIdentifiers` on a ScopeView (`mergedContext`) is the
concatenation of the base's identifier list followed by the overlay's,
with no deduplication — so a name present in both sides appears in the
result with the sum of its multiplicities, twice when each side lists it
once — while on a `mapContext` whose underlying map is well-formed
(distinct keys, as Go maps are) each stored key occurs exactly once and
an absent key not at all. -/
theorem getIdentifiers_spec (h : Heap) (base overlay : Store) (addr : Nat)
    (hwf : ((heapGet h addr).map Prod.fst).Nodup) (k : String) :
    (Store.merged base overlay).GetIdentifiers h =
      base.GetIdentifiers h ++ overlay.GetIdentifiers h ∧
    ((Store.merged base overlay).GetIdentifiers h).count k =
      (base.GetIdentifiers h).count k + (overlay.GetIdentifiers h).count k ∧
    ((Store.flat addr).GetIdentifiers h).count k =
      (if (flatGet (heapGet h addr) k).2 then 1 else 0) := by
  have hcat : (Store.merged base overlay).GetIdentifiers h =
      base.GetIdentifiers h ++ overlay.GetIdentifiers h := by
    by_cases ha : (base.GetIdentifiers h).length > 0
    · by_cases hb : (overlay.GetIdentifiers h).length > 0
      · simp [Store.GetIdentifiers, ha, hb]
      · have hb0 : overlay.GetIdentifiers h = [] :=
          List.length_eq_zero.mp (by omega)
        simp [Store.GetIdentifiers, ha, hb, hb0]
    · have ha0 : base.GetIdentifiers h = [] :=
        List.length_eq_zero.mp (by omega)
      by_cases hb : (overlay.GetIdentifiers h).length > 0
      · simp [Store.GetIdentifiers, ha, hb, ha0]
      · have hb0 : overlay.GetIdentifiers h = [] :=
          List.length_eq_zero.mp (by omega)
        simp [Store.GetIdentifiers, ha, hb, ha0, hb0]
  refine ⟨hcat, ?_, ?_⟩
  · rw [hcat, List.count_append]
  · exact count_keys_of_nodup (heapGet h addr) k hwf

/-- Witness for C8 at `base = map 0 = {x:1}`, `overlay = map 1 = {x:2, y:3}`. -/
theorem getIdentifiers_spec_witness :
    ((heapGet [[("x", Value.vint 1)], [("x", Value.vint 2), ("y", Value.vint 3)]]
        0).map Prod.fst).Nodup ∧
    ((Store.merged (Store.flat 0) (Store.flat 1)).GetIdentifiers
        [[("x", Value.vint 1)], [("x", Value.vint 2), ("y", Value.vint 3)]] =
      (Store.flat 0).GetIdentifiers
          [[("x", Value.vint 1)], [("x", Value.vint 2), ("y", Value.vint 3)]] ++
        (Store.flat 1).GetIdentifiers
          [[("x", Value.vint 1)], [("x", Value.vint 2), ("y", Value.vint 3)]] ∧
    ((Store.merged (Store.flat 0) (Store.flat 1)).GetIdentifiers
          [[("x", Value.vint 1)], [("x", Value.vint 2), ("y", Value.vint 3)]]).count "x" =
      ((Store.flat 0).GetIdentifiers
          [[("x", Value.vint 1)], [("x", Value.vint 2), ("y", Value.vint 3)]]).count "x" +
        ((Store.flat 1).GetIdentifiers
          [[("x", Value.vint 1)], [("x", Value.vint 2), ("y", Value.vint 3)]]).count "x" ∧
    (((Store.flat 0).GetIdentifiers
          [[("x", Value.vint 1)], [("x", Value.vint 2), ("y", Value.vint 3)]]).count "x" =
      if (flatGet (heapGet [[("x", Value.vint 1)],
          [("x", Value.vint 2), ("y", Value.vint 3)]] 0) "x").2 then 1 else 0)) :=
  ⟨by decide,
    getIdentifiers_spec [[("x", Value.vint 1)], [("x", Value.vint 2), ("y", Value.vint 3)]]
      (Store.flat 0) (Store.flat 1) 0 (by decide) "x"⟩

/-! ## C9: Autoescape is copied by value -/

/-- The Go field assignment `ctx.Autoescape = b` performed by a caller on
one scope. -/
def ExecutionContext.setAutoescape (ctx : ExecutionContext) (b : Bool) :
    ExecutionContext :=
  { ctx with Autoescape := b }

/-- **C9.** The `Autoescape` flag is copied by value: a root scope
snapshots the package-wide default at the moment of construction, a
`SetAutoescape` call performed afterwards changes the default seen by
later constructions but the already-built scope's recorded flag is still
the old default; a child copies the parent's flag at derivation, and
assigning a child's flag afterwards produces a scope differing only in
that flag — the parent's (or a sibling's) record, which is a separate
struct, is untouched. -/
theorem autoescape_by_value (w : World) (tpl tpl2 : Template) (ctx ctx2 : Store)
    (b b2 : Bool) (parent : ExecutionContext) :
    ((newExecutionContext w tpl ctx).1).Autoescape = w.autoescape ∧
    (SetAutoescape ((newExecutionContext w tpl ctx).2) b).autoescape = b ∧
    ((newExecutionContext (SetAutoescape ((newExecutionContext w tpl ctx).2) b)
        tpl2 ctx2).1).Autoescape = b ∧
    ((NewChildExecutionContext w parent).1).Autoescape = parent.Autoescape ∧
    ((((NewChildExecutionContext w parent).1).setAutoescape b2)).Autoescape = b2 ∧
    ((((NewChildExecutionContext w parent).1).setAutoescape b2)).Public =
      ((NewChildExecutionContext w parent).1).Public ∧
    ((((NewChildExecutionContext w parent).1).setAutoescape b2)).Private =
      ((NewChildExecutionContext w parent).1).Private ∧
    ((NewChildExecutionContext
        ((NewChildExecutionContext w parent).2) parent).1).Autoescape =
      parent.Autoescape :=
  ⟨rfl, rfl, rfl, rfl, rfl, rfl, rfl, rfl⟩

/-! ## C10: Context.Update -/

theorem flatGet_foldl_flatSet (entries : List (String × Value)) (d : FlatData)
    (k : String) (hnd : (entries.map Prod.fst).Nodup) :
    flatGet (entries.foldl (fun acc kv => flatSet acc kv.1 kv.2) d) k =
      (if (flatGet entries k).2 then flatGet entries k else flatGet d k) := by
  induction entries generalizing d with
  | nil => simp [flatGet]
  | cons kv rest ih =>
    obtain ⟨a, b⟩ := kv
    simp only [List.map_cons, List.nodup_cons] at hnd
    rw [List.foldl_cons, ih (flatSet d a b) hnd.2]
    by_cases hak : a = k
    · subst hak
      have hmiss : flatGet rest a = (Value.vnil, false) :=
        flatGet_eq_false_of_not_mem rest a hnd.1
      simp [flatGet, hmiss, flatGet_flatSet]
    · simp only [flatGet, if_neg hak]
      by_cases hf : (flatGet rest k).2
      · rw [if_pos hf, if_pos hf]
      · rw [if_neg hf, if_neg hf]
        exact flatGet_filter_ne d a k hak

/-- **C10.** `Context.Update(other)` mutates the receiver map in place:
it returns the very same map reference `c` (not a copy), every key of
`other` reads back in `c` with `other`'s value, every key absent from
`other` keeps its previous value in `c`, and no other map in the heap is
touched.  (`other`'s key set is well-formed — distinct keys — as every Go
map is.) -/
theorem context_update_spec (h : Heap) (c other : Context) (hc : c < h.length)
    (hwf : ((heapGet h other).map Prod.fst).Nodup) (k : String) (a : Nat)
    (hne : a ≠ c) :
    (Context.Update h c other).1 = c ∧
    flatGet (heapGet (Context.Update h c other).2 c) k =
      (if (flatGet (heapGet h other) k).2 then flatGet (heapGet h other) k
       else flatGet (heapGet h c) k) ∧
    heapGet (Context.Update h c other).2 a = heapGet h a := by
  refine ⟨rfl, ?_, ?_⟩
  · show flatGet (heapGet (heapSet h c _) c) k = _
    rw [heapGet_heapSet_eq h c _ hc]
    exact flatGet_foldl_flatSet (heapGet h other) (heapGet h c) k hwf
  · exact heapGet_heapSet_ne h c a _ (fun e => hne e.symm)

/-- Witness for C10 at `c = map 0 = {a:1, c:4}`,
`other = map 1 = {a:2, b:3}`. -/
theorem context_update_spec_witness :
    (0 : Nat) < ([[("a", Value.vint 1), ("c", Value.vint 4)],
        [("a", Value.vint 2), ("b", Value.vint 3)]] : Heap).length ∧
    ((heapGet [[("a", Value.vint 1), ("c", Value.vint 4)],
        [("a", Value.vint 2), ("b", Value.vint 3)]] 1).map Prod.fst).Nodup ∧
    (1 : Nat) ≠ 0 ∧
    ((Context.Update [[("a", Value.vint 1), ("c", Value.vint 4)],
        [("a", Value.vint 2), ("b", Value.vint 3)]] 0 1).1 = 0 ∧
    flatGet (heapGet (Context.Update [[("a", Value.vint 1), ("c", Value.vint 4)],
        [("a", Value.vint 2), ("b", Value.vint 3)]] 0 1).2 0) "a" =
      (if (flatGet (heapGet [[("a", Value.vint 1), ("c", Value.vint 4)],
            [("a", Value.vint 2), ("b", Value.vint 3)]] 1) "a").2 then
        flatGet (heapGet [[("a", Value.vint 1), ("c", Value.vint 4)],
            [("a", Value.vint 2), ("b", Value.vint 3)]] 1) "a"
       else flatGet (heapGet [[("a", Value.vint 1), ("c", Value.vint 4)],
            [("a", Value.vint 2), ("b", Value.vint 3)]] 0) "a") ∧
    heapGet (Context.Update [[("a", Value.vint 1), ("c", Value.vint 4)],
        [("a", Value.vint 2), ("b", Value.vint 3)]] 0 1).2 1 =
      heapGet [[("a", Value.vint 1), ("c", Value.vint 4)],
        [("a", Value.vint 2), ("b", Value.vint 3)]] 1) :=
  ⟨by decide, by decide, by decide,
    context_update_spec
      [[("a", Value.vint 1), ("c", Value.vint 4)],
        [("a", Value.vint 2), ("b", Value.vint 3)]]
      0 1 (by decide) (by decide) "a" 1 (by decide)⟩

end Pongo2
